import Mathlib

/-!
Shallow embedding of `src/jaxfenics/assemble.py` from the jax-fenics
repository, together with theorems settling the specification claims about
the module.

Modelling conventions:
* Python floats are carried as `Int` payloads: every property treated here is
  structural (error routing, list lengths, ordering, zero substitution), none
  depends on real arithmetic, and exact integers keep every definition
  decidable.
* JAX arrays are flat lists of numbers (`JaxArray`); a scalar output is a bare
  number (`np.asarray` of a Python float is the identity in this model).
* The external FEniCS/UFL collaborators are modelled as follows: the symbolic
  side (`ufl.Form` values, test functions, `fenics.derivative`,
  `ufl.algorithms.expand_derivatives`) is a free syntax tree `UflForm`,
  because assemble.py only ever constructs and passes such objects; the
  numeric calls `fenics.assemble` and `fenics_to_numpy` are parameters
  (`FenicsAPI`), universally quantified in the theorems and instantiated
  concretely in the witnesses.
* Python exceptions are the error side of `Except PyError`; Python type tags
  relevant to the `isinstance` checks are the constructors of `PyVal`, and
  `pyTypeName` stands for the name displayed by `type(x)`.
* `helpers.py` is imported by assemble.py but is not among the sources; the
  three helper functions used here are modelled from the specification, as
  stated in their doc comments.
-/

/-- A FEniCS mesh, identified abstractly (`ufl_domain().ufl_cargo()`). -/
structure Mesh where
  meshId : Nat
deriving DecidableEq

/-- A FEniCS function space, `fenics.FunctionSpace(mesh, family, degree)`. -/
structure FunctionSpace where
  mesh : Mesh
  family : String
  degree : Nat
deriving DecidableEq

/-- A finite-element variable (the `FenicsVariable` union of helpers.py):
either a `fenics.Function` over its function space, a scalar
`fenics.Constant`, or some other, unsupported, FEniCS object. -/
inductive FenicsVar
  | function (V : FunctionSpace) (data : List Int)
  | constant (val : Int)
  | unsupported (tag : Nat) (data : List Int)
deriving DecidableEq

/-- A direction along which a form is differentiated: either a
`fenics.TestFunction(V)` or a finite-element variable (the tangent case). -/
inductive UflDirection
  | test (V : FunctionSpace)
  | var (v : FenicsVar)
deriving DecidableEq

/-- Symbolic UFL forms, as a free syntax tree: assemble.py only constructs
forms (`fenics.derivative`, sums, `expand_derivatives`) and hands them to the
external assembler. `raddFloat` is Python `float + Form`. -/
inductive UflForm
  | base (mesh : Mesh) (tag : Nat)
  | deriv (f : UflForm) (x : FenicsVar) (dir : UflDirection)
  | add (f g : UflForm)
  | raddFloat (c : Int) (f : UflForm)
  | expandDerivatives (f : UflForm)
deriving DecidableEq

/-- `form.ufl_domain().ufl_cargo()`: the mesh a form lives on. -/
def UflForm.uflDomain : UflForm → Mesh
  | .base m _ => m
  | .deriv f _ _ => f.uflDomain
  | .add f _ => f.uflDomain
  | .raddFloat _ f => f.uflDomain
  | .expandDerivatives f => f.uflDomain

/-- The dynamic values a user-supplied fenics_function may return, with the
Python type tags that the `isinstance` checks in `assemble_eval` inspect. -/
inductive PyVal
  | float (x : Int)
  | int (n : Int)
  | str (s : String)
  | tuple (elems : List PyVal)
  | form (f : UflForm)
  | npFloat64 (x : Int)
  | pynone

/-- The name `type(x)` displays for each modelled Python value. -/
def pyTypeName : PyVal → String
  | .float _ => "float"
  | .int _ => "int"
  | .str _ => "str"
  | .tuple _ => "tuple"
  | .form _ => "Form"
  | .npFloat64 _ => "float64"
  | .pynone => "NoneType"

/-- `isinstance(x, tuple)`. -/
def pyIsTuple : PyVal → Bool
  | .tuple _ => true
  | _ => false

/-- `isinstance(x, float)`: `isinstance` accepts subclasses, and
`numpy.float64` (hence `jax.numpy.float64`, its alias) subclasses Python
`float`, so a library float64 scalar is a float instance as well; an int is
not (`bool` subclasses `int`, not `float`). -/
def pyIsFloat : PyVal → Bool
  | .float _ => true
  | .npFloat64 _ => true
  | _ => false

/-- `isinstance(x, ufl.Form)`. -/
def pyIsForm : PyVal → Bool
  | .form _ => true
  | _ => false

/-- The Python exceptions assemble.py (and the modelled helpers) can raise. -/
inductive PyError
  | valueError (msg : String)
  | typeCheckError (msg : String)
  | notImplementedError
  | assertionError
  | unboundLocalError (name : String)
deriving DecidableEq

/-- `raise ValueError(...)` message of the non-tuple-return branch. -/
def notTupleMsg : String :=
  "FEniCS function output should be in the form (assembly_output, ufl_form)."

/-- `raise ValueError(...)` message of the tuple-first-element branch. -/
def singleOutputMsg : String :=
  "Only single solution output from FEniCS function is supported."

/-- `raise ValueError(...)` message of the non-float-first-element branch. -/
def floatGotMsg (t : String) : String :=
  "FEniCS function output should be in the form (assembly_output, ufl_form). Got "
    ++ t ++ " instead of float"

/-- `raise ValueError(...)` message of the non-form-second-element branch. -/
def formGotMsg (t : String) : String :=
  "FEniCS function output should be in the form (assembly_output, ufl_form). Got "
    ++ t ++ " instead of ufl.Form"

/-- The Python unpacking error raised by `a, b = out` on a tuple whose length
is not two. -/
def unpackMsg (n : Nat) : String :=
  "values to unpack (expected 2, got " ++ toString n ++ ")"

/-- A JAX array, flattened. -/
def JaxArray : Type := List Int
deriving instance DecidableEq for JaxArray

deriving instance DecidableEq for Except

/-- `jax.ad_util.zeros_like_jaxval`: a zero array of the argument shape. -/
def zeros_like (a : JaxArray) : JaxArray :=
  a.map (fun _ => 0)

/-- The flat dof count a template expects its array argument to carry. -/
def fenicsShape : FenicsVar → Nat
  | .function _ data => data.length
  | .constant _ => 1
  | .unsupported _ data => data.length

/-- Modelled from the spec: `helpers.check_input` is not under `src/`.
Spec 4.1, Input Converter: "Fails with a TypeCheckError if argument count or
shape does not match the templates." -/
def check_input (fenics_templates : List FenicsVar) (args : List JaxArray) :
    Except PyError Unit :=
  if args.length == fenics_templates.length
      && (List.zip fenics_templates args).all (fun p => p.2.length == fenicsShape p.1)
  then .ok ()
  else .error (.typeCheckError "input arguments do not match the templates")

/-- Modelled from the spec: `helpers.numpy_to_fenics` is not under `src/`.
Spec 4.1: reconstruct a finite-element object of the template kind from the
flat numeric array. -/
def numpy_to_fenics (template : FenicsVar) (arr : JaxArray) : FenicsVar :=
  match template with
  | .function V _ => .function V arr
  | .constant _ => .constant (arr.headD 0)
  | .unsupported t _ => .unsupported t arr

/-- Modelled from the spec: `helpers.convert_all_to_fenics` is not under
`src/`. Spec 4.1: "produce an ordered collection of finite-element objects,
one per template". -/
def convert_all_to_fenics (fenics_templates : List FenicsVar)
    (args : List JaxArray) : List FenicsVar :=
  List.zipWith numpy_to_fenics fenics_templates args

/-- `assemble_eval` of assemble.py (lines 24-67): convert the inputs, call
the user function, enforce the (float, ufl.Form) return contract, and return
the scalar together with the form and the converted inputs. -/
def assemble_eval (fenics_function : List FenicsVar → PyVal)
    (fenics_templates : List FenicsVar) (args : List JaxArray) :
    Except PyError (Int × UflForm × List FenicsVar) :=
  match check_input fenics_templates args with
  | .error e => .error e
  | .ok _ =>
    let fenics_inputs := convert_all_to_fenics fenics_templates args
    match fenics_function fenics_inputs with
    | .tuple [assembly_output, ufl_form] =>
      if pyIsTuple assembly_output then .error (.valueError singleOutputMsg)
      else
        -- the two arms below are exactly the values with
        -- `isinstance(assembly_output, float)` true: an exact Python float,
        -- and a numpy/jax float64, which subclasses Python float
        match assembly_output with
        | .float x =>
          match ufl_form with
          | .form f => .ok (x, f, fenics_inputs)
          | other => .error (.valueError (formGotMsg (pyTypeName other)))
        | .npFloat64 x =>
          match ufl_form with
          | .form f => .ok (x, f, fenics_inputs)
          | other => .error (.valueError (formGotMsg (pyTypeName other)))
        | other => .error (.valueError (floatGotMsg (pyTypeName other)))
    | .tuple other => .error (.valueError (unpackMsg other.length))
    | _ => .error (.valueError notTupleMsg)

/-- The two numeric services assemble.py requests from FEniCS:
`fenics.assemble` (with the `None` outcome the code guards against) and
`fenics_to_numpy`. -/
structure FenicsAPI (A : Type) where
  assemble : UflForm → Option A
  fenicsToNumpy : A → List Int

/-- Materialising a Python list comprehension or `map` whose body may raise:
the first raised exception aborts the whole construction. -/
def mapExcept {α β : Type} (f : α → Except PyError β) : List α → Except PyError (List β)
  | [] => .ok []
  | x :: xs =>
    match f x with
    | .error e => .error e
    | .ok y =>
      match mapExcept f xs with
      | .error e => .error e
      | .ok ys => .ok (y :: ys)

/-- `vjp_assemble_impl` (lines 98-130): per input, resolve the test-function
space (own space for a `Function`, a degenerate Real-degree-0 space over the
form domain for a `Constant`, `NotImplementedError` otherwise), differentiate
the output form along that test function, assemble, and scale by the output
cotangent `g`. Entries where assembly returned `None` stay `none`.
`vjp_grad_form` is the body of the per-input loop (lines 105-117). -/
def vjp_grad_form (fenics_output_form : UflForm) : FenicsVar → Except PyError UflForm
  | .function V d =>
    .ok (UflForm.deriv fenics_output_form (.function V d) (.test V))
  | .constant c =>
    .ok (UflForm.deriv fenics_output_form (.constant c)
      (.test ⟨fenics_output_form.uflDomain, "Real", 0⟩))
  | .unsupported _ _ => .error .notImplementedError

def vjp_assemble_impl {A : Type} (api : FenicsAPI A) (g : Int)
    (fenics_output_form : UflForm) (fenics_inputs : List FenicsVar) :
    Except PyError (List (Option (List Int))) :=
  match mapExcept (vjp_grad_form fenics_output_form) fenics_inputs with
  | .error e => .error e
  | .ok fenics_grads_forms =>
    let fenics_grads := fenics_grads_forms.map api.assemble
    .ok (fenics_grads.map (fun fg =>
      fg.map (fun v => (api.fenicsToNumpy v).map (fun x => g * x))))

/-- The `enumerate` loop of `vjp_fun` (lines 89-92): replace an undefined
(`None`) gradient at position `i` by `zeros_like(args[i])`. -/
def noneToZeros (args : List JaxArray) : Nat → List (Option (List Int)) → List JaxArray
  | _, [] => []
  | i, og :: ogs => og.getD (zeros_like (args.getD i [])) :: noneToZeros args (i + 1) ogs

/-- The VJP closure built by `vjp_assemble_eval` (lines 88-92). -/
def vjp_fun {A : Type} (api : FenicsAPI A) (args : List JaxArray)
    (ufl_form : UflForm) (fenics_inputs : List FenicsVar) (g : Int) :
    Except PyError (List JaxArray) :=
  match vjp_assemble_impl api g ufl_form fenics_inputs with
  | .error e => .error e
  | .ok grads => .ok (noneToZeros args 0 grads)

/-- `vjp_assemble_eval` (lines 70-94): forward evaluation plus the VJP
closure. -/
def vjp_assemble_eval {A : Type} (api : FenicsAPI A)
    (fenics_function : List FenicsVar → PyVal) (fenics_templates : List FenicsVar)
    (args : List JaxArray) :
    Except PyError (Int × (Int → Except PyError (List JaxArray))) :=
  match assemble_eval fenics_function fenics_templates args with
  | .error e => .error e
  | .ok (numpy_output, ufl_form, fenics_inputs) =>
    .ok (numpy_output, vjp_fun api args ufl_form fenics_inputs)

/-- The dynamic type of the tangent-form accumulator in `jvp_assemble_eval`:
it starts as the Python float `0.0` and becomes a `ufl.Form` as soon as a
derivative is added. -/
inductive FloatOrForm
  | float (x : Int)
  | form (f : UflForm)
deriving DecidableEq

/-- One `output_tangent_form += fenics.derivative(...)` step. -/
def tangentAccumAdd : FloatOrForm → UflForm → FloatOrForm
  | .float c, d => .form (.raddFloat c d)
  | .form f, d => .form (.add f d)

/-- `jvp_assemble_eval` (lines 133-158), modelled faithfully including the
code path in which the accumulator is still a float after the loop: there the
code falls through to `jax_output_tangent = output_tangent` with the local
`output_tangent` never assigned, raising `UnboundLocalError`. -/
def jvp_assemble_eval {A : Type} (api : FenicsAPI A)
    (fenics_function : List FenicsVar → PyVal) (fenics_templates : List FenicsVar)
    (primals tangents : List JaxArray) : Except PyError (Int × Option A) :=
  match assemble_eval fenics_function fenics_templates primals with
  | .error e => .error e
  | .ok (numpy_output_primal, output_primal_form, fenics_primals) =>
    let fenics_tangents := convert_all_to_fenics fenics_primals tangents
    let output_tangent_form := (List.zip fenics_primals fenics_tangents).foldl
      (fun acc p => tangentAccumAdd acc (.deriv output_primal_form p.1 (.var p.2)))
      (.float 0)
    match output_tangent_form with
    | .form tf =>
      .ok (numpy_output_primal, api.assemble (.expandDerivatives tf))
    | .float _ => .error (.unboundLocalError "output_tangent")

/-- The callable bound to the primitive: `assemble_eval(...)[0]`
(lines 174-180). -/
def jax_assemble_eval (fenics_function : List FenicsVar → PyVal)
    (fenics_templates : List FenicsVar) (args : List JaxArray) :
    Except PyError Int :=
  match assemble_eval fenics_function fenics_templates args with
  | .error e => .error e
  | .ok r => .ok r.1

/-- `heads?`: the heads and tails of a list of lists, defined exactly when
every list is nonempty (one step of Python `map(f, *iterables)`). -/
def heads? {α : Type} : List (List α) → Option (List α × List (List α))
  | [] => some ([], [])
  | [] :: _ => none
  | (x :: xs) :: rest =>
    match heads? rest with
    | some (hs, ts) => some (x :: hs, xs :: ts)
    | none => none

/-- Fuelled column extraction for `zipStar`. -/
def zipStarAux {α : Type} : Nat → List (List α) → List (List α)
  | 0, _ => []
  | n + 1, xss =>
    match heads? xss with
    | some (hs, ts) => hs :: zipStarAux n ts
    | none => []

/-- Python `list(zip(*xss))` as used by `map(jax_assemble_eval,
*vector_arg_values)`: columns of `xss`, stopping at the shortest row. The
fuel `(headD []).length` bounds the column count. -/
def zipStar {α : Type} (xss : List (List α)) : List (List α) :=
  zipStarAux (xss.headD []).length xss

/-- `jax_assemble_eval_batch` (lines 188-195): the two `assert` statements
(`len(set(batch_axes)) == 1` and `batch_axes[0] == 0`), then the sequential
independent evaluations, restacked, with output batch axis `batch_axes[0]`. -/
def jax_assemble_eval_batch (jax_eval : List JaxArray → Except PyError Int)
    (vector_arg_values : List (List JaxArray)) (batch_axes : List Nat) :
    Except PyError (List Int × Nat) :=
  if batch_axes.dedup.length = 1 then
    if batch_axes.headD 0 = 0 then
      match mapExcept jax_eval (zipStar vector_arg_values) with
      | .error e => .error e
      | .ok res => .ok (res, batch_axes.headD 0)
    else .error .assertionError
  else .error .assertionError

/-- `jax.abstract_arrays.make_shaped_array` of a scalar float array. -/
structure ShapedArray where
  shape : List Nat
  dtype : String
deriving DecidableEq

/-- The abstract value of the scalar output. -/
def make_shaped_array (_x : Int) : ShapedArray :=
  ⟨[], "float64"⟩

/-- The registration state of a JAX primitive: the rules that can be attached
to one operation identity (`def_impl`, `def_abstract_eval`,
`batching.primitive_batchers[p]`, `defvjp_all`, `defjvp_all`). -/
structure JaxPrimitive (A : Type) where
  name : String
  impl : Option (List JaxArray → Except PyError Int)
  abstract_eval : Option (List JaxArray → Except PyError ShapedArray)
  batcher : Option (List (List JaxArray) → List Nat → Except PyError (List Int × Nat))
  vjp_rule : Option (List JaxArray → Except PyError (Int × (Int → Except PyError (List JaxArray))))
  jvp_rule : Option (List JaxArray → List JaxArray → Except PyError (Int × Option A))

/-- `build_jax_assemble_eval` (lines 161-213): the decorator registers, on
the fresh primitive `jax_assemble_eval_p`, an impl, an abstract eval, a
batching rule and (through the helper primitive `djax_assemble_eval_p`, whose
impl is `vjp_assemble_eval`, passed to `defvjp_all`) a reverse-mode rule.
No `defjvp` call occurs anywhere in the decorator. -/
def build_jax_assemble_eval {A : Type} (api : FenicsAPI A)
    (fenics_templates : List FenicsVar)
    (fenics_function : List FenicsVar → PyVal) : JaxPrimitive A :=
  ⟨"jax_assemble_eval",
    some (jax_assemble_eval fenics_function fenics_templates),
    some (fun args =>
      match assemble_eval fenics_function fenics_templates args with
      | .error e => .error e
      | .ok r => .ok (make_shaped_array r.1)),
    some (jax_assemble_eval_batch (jax_assemble_eval fenics_function fenics_templates)),
    some (vjp_assemble_eval api fenics_function fenics_templates),
    none⟩

/-- How many of the five possible rules are registered on a primitive. -/
def registeredCount {A : Type} (p : JaxPrimitive A) : Nat :=
  [p.impl.isSome, p.abstract_eval.isSome, p.batcher.isSome,
    p.vjp_rule.isSome, p.jvp_rule.isSome].count true

/-- Is `pat` an initial segment of `l`. -/
def listStartsWith : List Char → List Char → Bool
  | [], _ => true
  | _ :: _, [] => false
  | a :: as, b :: bs => a == b && listStartsWith as bs

/-- Does `pat` occur contiguously in `l`. -/
def listOccursIn (pat : List Char) : List Char → Bool
  | [] => listStartsWith pat []
  | c :: rest => listStartsWith pat (c :: rest) || listOccursIn pat rest

/-- Does the string `pat` occur in `s` (an error message "names" a type when
the type name occurs in it). -/
def isSubstring (pat s : String) : Bool :=
  listOccursIn pat.toList s.toList

/-- A concrete mesh for witnesses. -/
def demoMesh : Mesh := ⟨0⟩

/-- A concrete function space for witnesses. -/
def demoSpace : FunctionSpace := ⟨demoMesh, "P", 1⟩

/-- A concrete base form for witnesses. -/
def demoForm : UflForm := .base demoMesh 0

/-- A FEniCS backend whose assembler always reports an undefined result. -/
def apiNone : FenicsAPI (List Int) := ⟨fun _ => none, fun a => a⟩

/-- A FEniCS backend whose assembler always yields the vector `[2]`. -/
def apiTwo : FenicsAPI (List Int) := ⟨fun _ => some [2], fun a => a⟩

/-! Helper lemmas shared by the claim theorems. -/

theorem mapExcept_ok_length {α β : Type} {f : α → Except PyError β} :
    ∀ {l : List α} {ys : List β}, mapExcept f l = .ok ys → ys.length = l.length := by
  intro l
  induction l with
  | nil => intro ys h; simp [mapExcept] at h; simp [← h]
  | cons x xs ih =>
    intro ys h
    simp only [mapExcept] at h
    cases hx : f x with
    | error e => rw [hx] at h; cases h
    | ok y =>
      rw [hx] at h
      cases hxs : mapExcept f xs with
      | error e => rw [hxs] at h; cases h
      | ok ys2 =>
        rw [hxs] at h
        cases h
        simp [ih hxs]

theorem mapExcept_ok_getElem? {α β : Type} {f : α → Except PyError β} :
    ∀ {l : List α} {ys : List β}, mapExcept f l = .ok ys →
      ∀ (i : Nat) (x : α), l[i]? = some x → ∃ y, f x = .ok y ∧ ys[i]? = some y := by
  intro l
  induction l with
  | nil => intro ys _ i x hx; simp at hx
  | cons a as ih =>
    intro ys h i x hx
    simp only [mapExcept] at h
    cases ha : f a with
    | error e => rw [ha] at h; cases h
    | ok y =>
      rw [ha] at h
      cases has : mapExcept f as with
      | error e => rw [has] at h; cases h
      | ok ys2 =>
        rw [has] at h
        cases h
        cases i with
        | zero =>
          simp at hx
          subst hx
          refine ⟨y, ha, ?_⟩
          simp
        | succ j =>
          simp only [List.getElem?_cons_succ] at hx
          obtain ⟨y2, hy2, hget⟩ := ih has j x hx
          refine ⟨y2, hy2, ?_⟩
          simpa using hget

theorem mapExcept_error_mem {α β : Type} {f : α → Except PyError β} :
    ∀ {l : List α} {e : PyError}, mapExcept f l = .error e → ∃ x ∈ l, f x = .error e := by
  intro l
  induction l with
  | nil => intro e h; simp [mapExcept] at h
  | cons a as ih =>
    intro e h
    simp only [mapExcept] at h
    cases ha : f a with
    | error e2 => rw [ha] at h; cases h; exact ⟨a, by simp, ha⟩
    | ok y =>
      rw [ha] at h
      cases has : mapExcept f as with
      | error e2 =>
        rw [has] at h; cases h
        obtain ⟨x, hx, hfx⟩ := ih has
        exact ⟨x, by simp [hx], hfx⟩
      | ok ys => rw [has] at h; cases h

theorem mapExcept_ok_of_forall {α β : Type} {f : α → Except PyError β} :
    ∀ {l : List α}, (∀ x ∈ l, ∃ y, f x = .ok y) → ∃ ys, mapExcept f l = .ok ys := by
  intro l
  induction l with
  | nil => intro _; exact ⟨[], rfl⟩
  | cons a as ih =>
    intro h
    obtain ⟨y, hy⟩ := h a (by simp)
    obtain ⟨ys, hys⟩ := ih (fun x hx => h x (by simp [hx]))
    exact ⟨y :: ys, by simp [mapExcept, hy, hys]⟩

theorem noneToZeros_length {args : List JaxArray} :
    ∀ (gs : List (Option (List Int))) (i0 : Nat),
      (noneToZeros args i0 gs).length = gs.length := by
  intro gs
  induction gs with
  | nil => intro i0; rfl
  | cons g gsr ih => intro i0; simp [noneToZeros, ih]

theorem noneToZeros_getElem? {args : List JaxArray} :
    ∀ (gs : List (Option (List Int))) (i0 i : Nat),
      (noneToZeros args i0 gs)[i]? =
        gs[i]?.map (fun og => og.getD (zeros_like (args.getD (i0 + i) []))) := by
  intro gs
  induction gs with
  | nil => intro i0 i; simp [noneToZeros]
  | cons g gsr ih =>
    intro i0 i
    cases i with
    | zero => simp [noneToZeros]
    | succ j =>
      simp only [noneToZeros, List.getElem?_cons_succ, ih gsr.length.succ]
      rw [ih (i0 + 1) j]
      have : i0 + 1 + j = i0 + (j + 1) := by omega
      rw [this]

theorem check_input_ok_length {t : List FenicsVar} {a : List JaxArray}
    (h : check_input t a = .ok ()) : a.length = t.length := by
  simp only [check_input] at h
  split at h
  · rename_i hc
    simp only [Bool.and_eq_true, beq_iff_eq] at hc
    exact hc.1
  · cases h

theorem convert_length {t : List FenicsVar} {a : List JaxArray} :
    (convert_all_to_fenics t a).length = min t.length a.length := by
  simp [convert_all_to_fenics]

theorem assemble_eval_ok_inv {f : List FenicsVar → PyVal} {t : List FenicsVar}
    {a : List JaxArray} {x : Int} {φ : UflForm} {ins : List FenicsVar}
    (h : assemble_eval f t a = .ok (x, φ, ins)) :
    check_input t a = .ok () ∧ ins = convert_all_to_fenics t a ∧
      (f (convert_all_to_fenics t a) = .tuple [.float x, .form φ] ∨
        f (convert_all_to_fenics t a) = .tuple [.npFloat64 x, .form φ]) := by
  simp only [assemble_eval] at h
  cases hc : check_input t a with
  | error e => rw [hc] at h; cases h
  | ok u =>
    cases u
    rw [hc] at h
    refine ⟨rfl, ?_⟩
    cases hf : f (convert_all_to_fenics t a) with
    | tuple elems =>
      rw [hf] at h
      match elems, h with
      | [a0, b0], h => ?_
      | [], h => cases h
      | [a0], h => cases h
      | a0 :: b0 :: c0 :: rest, h => cases h
      simp only at h
      cases ha0 : pyIsTuple a0 with
      | true => rw [ha0] at h; simp at h
      | false =>
        rw [ha0] at h
        simp only [Bool.false_eq_true, if_false] at h
        cases a0 with
        | float xv =>
          cases b0 with
          | form fv => cases h; exact ⟨rfl, .inl rfl⟩
          | float b => cases h
          | int b => cases h
          | str b => cases h
          | tuple b => cases h
          | npFloat64 b => cases h
          | pynone => cases h
        | npFloat64 xv =>
          cases b0 with
          | form fv => cases h; exact ⟨rfl, .inr rfl⟩
          | float b => cases h
          | int b => cases h
          | str b => cases h
          | tuple b => cases h
          | npFloat64 b => cases h
          | pynone => cases h
        | int n => cases h
        | str s => cases h
        | tuple l => simp [pyIsTuple] at ha0
        | form g => cases h
        | pynone => cases h
    | float v => rw [hf] at h; cases h
    | int v => rw [hf] at h; cases h
    | str v => rw [hf] at h; cases h
    | form v => rw [hf] at h; cases h
    | npFloat64 v => rw [hf] at h; cases h
    | pynone => rw [hf] at h; cases h

theorem assemble_eval_error_kind {f : List FenicsVar → PyVal} {t : List FenicsVar}
    {a : List JaxArray} {e : PyError} (h : assemble_eval f t a = .error e) :
    (∃ m, e = .valueError m) ∨ (∃ m, e = .typeCheckError m) := by
  simp only [assemble_eval] at h
  cases hc : check_input t a with
  | error e2 =>
    rw [hc] at h
    cases h
    simp only [check_input] at hc
    split at hc
    · cases hc
    · cases hc; exact .inr ⟨_, rfl⟩
  | ok u =>
    cases u
    rw [hc] at h
    cases hf : f (convert_all_to_fenics t a) with
    | tuple elems =>
      rw [hf] at h
      match elems, h with
      | [], h => cases h; exact .inl ⟨_, rfl⟩
      | [a0], h => cases h; exact .inl ⟨_, rfl⟩
      | a0 :: b0 :: c0 :: rest, h => cases h; exact .inl ⟨_, rfl⟩
      | [a0, b0], h => ?_
      simp only at h
      cases ha0 : pyIsTuple a0 with
      | true => rw [ha0] at h; simp at h; cases h; exact .inl ⟨_, rfl⟩
      | false =>
        rw [ha0] at h
        simp only [Bool.false_eq_true, if_false] at h
        cases a0 with
        | float xv =>
          cases b0 with
          | form fv => cases h
          | float b => cases h; exact .inl ⟨_, rfl⟩
          | int b => cases h; exact .inl ⟨_, rfl⟩
          | str b => cases h; exact .inl ⟨_, rfl⟩
          | tuple b => cases h; exact .inl ⟨_, rfl⟩
          | npFloat64 b => cases h; exact .inl ⟨_, rfl⟩
          | pynone => cases h; exact .inl ⟨_, rfl⟩
        | npFloat64 xv =>
          cases b0 with
          | form fv => cases h
          | float b => cases h; exact .inl ⟨_, rfl⟩
          | int b => cases h; exact .inl ⟨_, rfl⟩
          | str b => cases h; exact .inl ⟨_, rfl⟩
          | tuple b => cases h; exact .inl ⟨_, rfl⟩
          | npFloat64 b => cases h; exact .inl ⟨_, rfl⟩
          | pynone => cases h; exact .inl ⟨_, rfl⟩
        | int n => cases h; exact .inl ⟨_, rfl⟩
        | str s => cases h; exact .inl ⟨_, rfl⟩
        | tuple l => simp [pyIsTuple] at ha0
        | form g => cases h; exact .inl ⟨_, rfl⟩
        | pynone => cases h; exact .inl ⟨_, rfl⟩
    | float v => rw [hf] at h; cases h; exact .inl ⟨_, rfl⟩
    | int v => rw [hf] at h; cases h; exact .inl ⟨_, rfl⟩
    | str v => rw [hf] at h; cases h; exact .inl ⟨_, rfl⟩
    | form v => rw [hf] at h; cases h; exact .inl ⟨_, rfl⟩
    | npFloat64 v => rw [hf] at h; cases h; exact .inl ⟨_, rfl⟩
    | pynone => rw [hf] at h; cases h; exact .inl ⟨_, rfl⟩

theorem heads?_eq_some {α : Type} (d : α) :
    ∀ (xss : List (List α)), (∀ r ∈ xss, r ≠ []) →
      heads? xss = some (xss.map (fun r => r.headD d), xss.map List.tail) := by
  intro xss
  induction xss with
  | nil => intro _; rfl
  | cons r rest ih =>
    intro h
    obtain ⟨x, xs, hr⟩ := List.exists_cons_of_ne_nil (h r (by simp))
    subst hr
    have hrest := ih (fun s hs => h s (by simp [hs]))
    simp [heads?, hrest]

theorem zipStar_cons_col {α : Type} (d : α) {k : Nat} :
    ∀ (xss : List (List α)), xss ≠ [] → (∀ r ∈ xss, r.length = k + 1) →
      zipStar xss = xss.map (fun r => r.headD d) :: zipStar (xss.map List.tail) := by
  intro xss hne hrect
  obtain ⟨r0, rest, hx⟩ := List.exists_cons_of_ne_nil hne
  subst hx
  have hr0 : r0.length = k + 1 := hrect r0 (by simp)
  have hnonnil : ∀ r ∈ r0 :: rest, r ≠ [] := by
    intro r hr hc
    have := hrect r hr
    subst hc
    simp at this
  have hheads := heads?_eq_some d (r0 :: rest) hnonnil
  have htail : r0.tail.length = k := by simp [List.length_tail, hr0]
  unfold zipStar
  simp only [List.headD_cons, List.map_cons, List.tail_cons, hr0, htail]
  simp [zipStarAux, hheads]

theorem zipStar_length {α : Type} (d : α) :
    ∀ (k : Nat) (xss : List (List α)), xss ≠ [] → (∀ r ∈ xss, r.length = k) →
      (zipStar xss).length = k ∧ ∀ c ∈ zipStar xss, c.length = xss.length := by
  intro k
  induction k with
  | zero =>
    intro xss hne hrect
    obtain ⟨r0, rest, hx⟩ := List.exists_cons_of_ne_nil hne
    subst hx
    have hr0 : r0.length = 0 := hrect r0 (by simp)
    have hz : zipStar (r0 :: rest) = [] := by
      unfold zipStar
      simp [hr0, zipStarAux]
    simp [hz]
  | succ m ih =>
    intro xss hne hrect
    rw [zipStar_cons_col d xss hne hrect]
    have hmapne : xss.map List.tail ≠ [] := by
      intro hc
      exact hne (List.map_eq_nil_iff.mp hc)
    have hmaprect : ∀ r ∈ xss.map List.tail, r.length = m := by
      intro r hr
      obtain ⟨s, hs, rfl⟩ := List.mem_map.mp hr
      simp [List.length_tail, hrect s hs]
    obtain ⟨hlen, hcols⟩ := ih (xss.map List.tail) hmapne hmaprect
    refine ⟨by simp [hlen], ?_⟩
    intro c hc
    rcases List.mem_cons.mp hc with rfl | hc
    · simp
    · rw [hcols c hc]
      simp

theorem zipStarAux_single {α : Type} :
    ∀ (r : List α), zipStarAux r.length [r] = r.map (fun x => [x]) := by
  intro r
  induction r with
  | nil => rfl
  | cons x xs ih => simp [zipStarAux, heads?, ih]

theorem zipStar_single {α : Type} (r : List α) :
    zipStar [r] = r.map (fun x => [x]) := by
  unfold zipStar
  simpa using zipStarAux_single r

theorem zipStar_cons_zipWith {α : Type} :
    ∀ (r : List α) (yss : List (List α)), yss ≠ [] →
      (∀ s ∈ yss, s.length = r.length) →
      zipStar (r :: yss) = List.zipWith List.cons r (zipStar yss) := by
  intro r
  induction r with
  | nil =>
    intro yss _ _
    unfold zipStar
    simp [zipStarAux]
  | cons x xs ih =>
    intro yss hne hrect
    have hrect1 : ∀ s ∈ (x :: xs) :: yss, s.length = xs.length + 1 := by
      intro s hs
      rcases List.mem_cons.mp hs with rfl | hs
      · simp
      · simpa using hrect s hs
    rw [zipStar_cons_col x ((x :: xs) :: yss) (by simp) hrect1]
    rw [zipStar_cons_col x yss hne (fun s hs => by simpa using hrect s hs)]
    simp only [List.map_cons, List.headD_cons, List.tail_cons, List.zipWith_cons_cons]
    have hmapne : yss.map List.tail ≠ [] := by
      intro hc
      exact hne (List.map_eq_nil_iff.mp hc)
    have hmaprect : ∀ s ∈ yss.map List.tail, s.length = xs.length := by
      intro s hs
      obtain ⟨u, hu, rfl⟩ := List.mem_map.mp hs
      simp [List.length_tail, hrect u hu]
    rw [ih (yss.map List.tail) hmapne hmaprect]

theorem zipWith_cons_headD_tail {α : Type} (d : α) :
    ∀ (l : List (List α)), (∀ r ∈ l, r ≠ []) →
      List.zipWith List.cons (l.map (fun r => r.headD d)) (l.map List.tail) = l := by
  intro l
  induction l with
  | nil => intro _; rfl
  | cons r rest ih =>
    intro h
    obtain ⟨x, xs, hr⟩ := List.exists_cons_of_ne_nil (h r (by simp))
    subst hr
    simp only [List.map_cons, List.headD_cons, List.tail_cons, List.zipWith_cons_cons]
    rw [ih (fun s hs => h s (by simp [hs]))]

theorem map_headD_singleton {α : Type} (d : α) :
    ∀ (l : List (List α)), (∀ r ∈ l, r.length = 1) →
      l.map (fun r => [r.headD d]) = l := by
  intro l
  induction l with
  | nil => intro _; rfl
  | cons r rest ih =>
    intro h
    have hr := h r (by simp)
    match r, hr with
    | [a], _ =>
      simp only [List.map_cons, List.headD_cons]
      rw [ih (fun s hs => h s (by simp [hs]))]

theorem zipStar_invol {α : Type} (d : α) :
    ∀ (k : Nat) (xss : List (List α)), xss ≠ [] → (∀ r ∈ xss, r.length = k + 1) →
      zipStar (zipStar xss) = xss := by
  intro k
  induction k with
  | zero =>
    intro xss hne hrect
    rw [zipStar_cons_col d xss hne hrect]
    have htails : zipStar (xss.map List.tail) = [] := by
      obtain ⟨r0, rest, hx⟩ := List.exists_cons_of_ne_nil hne
      subst hx
      have : r0.tail.length = 0 := by
        simp [List.length_tail, hrect r0 (by simp)]
      unfold zipStar
      simp [this, zipStarAux]
    rw [htails, zipStar_single, List.map_map]
    exact map_headD_singleton d xss hrect
  | succ m ih =>
    intro xss hne hrect
    have hTne : xss.map List.tail ≠ [] := by
      intro hc
      exact hne (List.map_eq_nil_iff.mp hc)
    have hTrect : ∀ r ∈ xss.map List.tail, r.length = m + 1 := by
      intro r hr
      obtain ⟨s, hs, rfl⟩ := List.mem_map.mp hr
      simp [List.length_tail, hrect s hs]
    have hZ := zipStar_length d (m + 1) (xss.map List.tail) hTne hTrect
    have hZne : zipStar (xss.map List.tail) ≠ [] := by
      intro hc
      rw [hc] at hZ
      simp at hZ
    have hrect2 : ∀ s ∈ zipStar (xss.map List.tail),
        s.length = (xss.map (fun r => r.headD d)).length := by
      intro s hs
      rw [hZ.2 s hs]
      simp
    rw [zipStar_cons_col d xss hne hrect,
      zipStar_cons_zipWith _ _ hZne hrect2,
      ih (xss.map List.tail) hTne hTrect]
    exact zipWith_cons_headD_tail d xss (fun r hr hc => by
      have := hrect r hr
      subst hc
      simp at this)

theorem dedup_length_one_iff {l : List Nat} :
    l.dedup.length = 1 ↔ ∃ a, l ≠ [] ∧ ∀ b ∈ l, b = a := by
  constructor
  · intro h
    obtain ⟨a, ha⟩ := List.length_eq_one.mp h
    refine ⟨a, ?_, ?_⟩
    · intro hc
      subst hc
      simp [List.dedup_nil] at ha
    · intro b hb
      have hmem : b ∈ l.dedup := List.mem_dedup.mpr hb
      rw [ha] at hmem
      simpa using hmem
  · rintro ⟨a, hne, hall⟩
    have hrep : l = List.replicate l.length a := by
      rw [List.eq_replicate_iff]
      exact ⟨rfl, hall⟩
    have hlen : l.length ≠ 0 := by
      intro hc
      exact hne (List.length_eq_zero.mp hc)
    rw [hrep, List.replicate_dedup hlen]
    rfl

theorem vjp_grad_form_error {F : UflForm} {v : FenicsVar} {e : PyError}
    (h : vjp_grad_form F v = .error e) : e = .notImplementedError := by
  cases v with
  | function V d => simp [vjp_grad_form] at h
  | constant c => simp [vjp_grad_form] at h
  | unsupported tg d =>
    simp only [vjp_grad_form] at h
    cases h
    rfl

theorem mapExcept_grad_unsupported {F : UflForm} :
    ∀ (l : List FenicsVar), (∃ v ∈ l, ∃ tg d, v = .unsupported tg d) →
      mapExcept (vjp_grad_form F) l = .error .notImplementedError := by
  intro l
  induction l with
  | nil => rintro ⟨v, hv, _⟩; simp at hv
  | cons x xs ih =>
    rintro ⟨v, hv, tg, d, hvu⟩
    rcases List.mem_cons.mp hv with rfl | hv
    · subst hvu
      simp [mapExcept, vjp_grad_form]
    · have hxs := ih ⟨v, hv, tg, d, hvu⟩
      simp only [mapExcept]
      cases hx : vjp_grad_form F x with
      | error e => rw [vjp_grad_form_error hx]
      | ok y => rw [hxs]

theorem vjp_assemble_impl_length {A : Type} {api : FenicsAPI A} {g : Int}
    {F : UflForm} {ins : List FenicsVar} {grads : List (Option (List Int))}
    (h : vjp_assemble_impl api g F ins = .ok grads) : grads.length = ins.length := by
  simp only [vjp_assemble_impl] at h
  cases hm : mapExcept (vjp_grad_form F) ins with
  | error e => rw [hm] at h; cases h
  | ok fs =>
    rw [hm] at h
    cases h
    simp [mapExcept_ok_length hm]

theorem assemble_eval_body {f : List FenicsVar → PyVal} {t : List FenicsVar}
    {a : List JaxArray} (hc : check_input t a = .ok ()) :
    assemble_eval f t a =
      match f (convert_all_to_fenics t a) with
      | .tuple [assembly_output, ufl_form] =>
        if pyIsTuple assembly_output then .error (.valueError singleOutputMsg)
        else
          match assembly_output with
          | .float x =>
            match ufl_form with
            | .form g => .ok (x, g, convert_all_to_fenics t a)
            | other => .error (.valueError (formGotMsg (pyTypeName other)))
          | .npFloat64 x =>
            match ufl_form with
            | .form g => .ok (x, g, convert_all_to_fenics t a)
            | other => .error (.valueError (formGotMsg (pyTypeName other)))
          | other => .error (.valueError (floatGotMsg (pyTypeName other)))
      | .tuple other => .error (.valueError (unpackMsg other.length))
      | _ => .error (.valueError notTupleMsg) := by
  simp only [assemble_eval, hc]

theorem jax_assemble_eval_no_assert {f : List FenicsVar → PyVal}
    {t : List FenicsVar} {args : List JaxArray} :
    jax_assemble_eval f t args ≠ .error .assertionError := by
  intro hcontra
  simp only [jax_assemble_eval] at hcontra
  cases h : assemble_eval f t args with
  | error e =>
    rw [h] at hcontra
    cases hcontra
    rcases assemble_eval_error_kind h with ⟨m, hm⟩ | ⟨m, hm⟩ <;> cases hm
  | ok r => rw [h] at hcontra; cases hcontra

/-! The claims. -/

/-- C9: for every wrapped function, the Primitive Registrar registers exactly
four behaviors on the fresh operation identity — plain evaluation (the
assemble_eval scalar), abstract/shape evaluation, batched evaluation, and the
reverse-mode derivative rule — and registers no forward-mode (JVP) rule, even
though `jvp_assemble_eval` exists in the module. -/
theorem c9_registrar_rules {A : Type} (api : FenicsAPI A)
    (fenics_templates : List FenicsVar)
    (fenics_function : List FenicsVar → PyVal) :
    registeredCount (build_jax_assemble_eval api fenics_templates fenics_function) = 4 ∧
    (build_jax_assemble_eval api fenics_templates fenics_function).impl =
      some (jax_assemble_eval fenics_function fenics_templates) ∧
    (build_jax_assemble_eval api fenics_templates fenics_function).abstract_eval.isSome = true ∧
    (build_jax_assemble_eval api fenics_templates fenics_function).batcher =
      some (jax_assemble_eval_batch (jax_assemble_eval fenics_function fenics_templates)) ∧
    (build_jax_assemble_eval api fenics_templates fenics_function).vjp_rule =
      some (vjp_assemble_eval api fenics_function fenics_templates) ∧
    (build_jax_assemble_eval api fenics_templates fenics_function).jvp_rule = none :=
  ⟨rfl, rfl, rfl, rfl, rfl, rfl⟩

/-- C2: the claim says that when the accumulated tangent form stays a literal
numeric zero (empty primal/tangent collections) the forward-mode builder
returns (primal output, zero) without assembly. The code instead raises
UnboundLocalError there: the primal evaluation succeeds (first conjunct), but
`output_tangent` is read without ever being assigned (second conjunct). -/
theorem c2_jvp_zero_tangent_bug :
    assemble_eval (fun _ => .tuple [.float 1, .form demoForm]) [] [] =
      .ok (1, demoForm, []) ∧
    jvp_assemble_eval apiTwo (fun _ => .tuple [.float 1, .form demoForm]) [] [] [] =
      .error (.unboundLocalError "output_tangent") := by
  decide

/-- C3 counterexample: a user function returning a bare (non-tuple) float
fails with the fixed contract ValueError, whose message does not name the
offending observed type ("float" does not occur in it) — refuting the claim
that every contract-violation message names the offending type. -/
theorem c3_counterexample :
    assemble_eval (fun _ => .float 2) [] [] = .error (.valueError notTupleMsg) ∧
    isSubstring (pyTypeName (.float 2)) notTupleMsg = false := by
  decide

/-- C3 (amended): for every call in which input conversion succeeded, the
Forward Evaluator enforces the return contract as follows: a non-tuple return
fails with the fixed contract ValueError whose message does not name the
observed type; a two-tuple whose first element is itself a tuple fails with
the single-output ValueError; a two-tuple with a non-float, non-tuple first
element fails with a ValueError naming the observed type; a two-tuple with a
float first element and a non-form second element fails with a ValueError
naming the observed type; and on a well-formed (float, form) return no error
is raised and the scalar is returned. -/
theorem c3_contract_amended (f : List FenicsVar → PyVal) (t : List FenicsVar)
    (a : List JaxArray) (hc : check_input t a = .ok ()) :
    (pyIsTuple (f (convert_all_to_fenics t a)) = false →
      assemble_eval f t a = .error (.valueError notTupleMsg) ∧
        isSubstring (pyTypeName (f (convert_all_to_fenics t a))) notTupleMsg = false) ∧
    (∀ l b0, f (convert_all_to_fenics t a) = .tuple [.tuple l, b0] →
      assemble_eval f t a = .error (.valueError singleOutputMsg)) ∧
    (∀ a0 b0, f (convert_all_to_fenics t a) = .tuple [a0, b0] →
      pyIsTuple a0 = false → pyIsFloat a0 = false →
      assemble_eval f t a = .error (.valueError (floatGotMsg (pyTypeName a0))) ∧
        isSubstring (pyTypeName a0) (floatGotMsg (pyTypeName a0)) = true) ∧
    (∀ x b0, f (convert_all_to_fenics t a) = .tuple [.float x, b0] →
      pyIsForm b0 = false →
      assemble_eval f t a = .error (.valueError (formGotMsg (pyTypeName b0))) ∧
        isSubstring (pyTypeName b0) (formGotMsg (pyTypeName b0)) = true) ∧
    (∀ x φ, f (convert_all_to_fenics t a) = .tuple [.float x, .form φ] →
      assemble_eval f t a = .ok (x, φ, convert_all_to_fenics t a)) := by
  refine ⟨?_, ?_, ?_, ?_, ?_⟩
  · intro hnt
    rw [assemble_eval_body hc]
    cases hf : f (convert_all_to_fenics t a) with
    | tuple elems => rw [hf] at hnt; simp [pyIsTuple] at hnt
    | float v => exact ⟨rfl, rfl⟩
    | int v => exact ⟨rfl, rfl⟩
    | str v => exact ⟨rfl, rfl⟩
    | form v => exact ⟨rfl, rfl⟩
    | npFloat64 v => exact ⟨rfl, rfl⟩
    | pynone => exact ⟨rfl, rfl⟩
  · intro l b0 hf
    rw [assemble_eval_body hc, hf]
    rfl
  · intro a0 b0 hf htup hfl
    rw [assemble_eval_body hc, hf]
    cases a0 with
    | float v => simp [pyIsFloat] at hfl
    | npFloat64 v => simp [pyIsFloat] at hfl
    | tuple l => simp [pyIsTuple] at htup
    | int v => exact ⟨rfl, rfl⟩
    | str v => exact ⟨rfl, rfl⟩
    | form v => exact ⟨rfl, rfl⟩
    | pynone => exact ⟨rfl, rfl⟩
  · intro x b0 hf hform
    rw [assemble_eval_body hc, hf]
    cases b0 with
    | form v => simp [pyIsForm] at hform
    | float v => exact ⟨rfl, rfl⟩
    | int v => exact ⟨rfl, rfl⟩
    | str v => exact ⟨rfl, rfl⟩
    | tuple l => exact ⟨rfl, rfl⟩
    | npFloat64 v => exact ⟨rfl, rfl⟩
    | pynone => exact ⟨rfl, rfl⟩
  · intro x φ hf
    rw [assemble_eval_body hc, hf]
    rfl

/-- C3 witness: at a concrete call, a two-tuple with an int first element
is rejected with the ValueError that does name the observed type. -/
theorem c3_contract_amended_witness :
    assemble_eval (fun _ => .tuple [.int 3, .form demoForm]) [] [] =
      .error (.valueError (floatGotMsg (pyTypeName (.int 3)))) ∧
    isSubstring (pyTypeName (.int 3)) (floatGotMsg (pyTypeName (.int 3))) = true :=
  (c3_contract_amended (fun _ => .tuple [.int 3, .form demoForm]) [] [] rfl).2.2.1
    (.int 3) (.form demoForm) rfl rfl rfl

/-- C10 counterexample: the claim says a library float64 scalar in the first
slot is rejected with the contract error, but `numpy.float64` subclasses
Python `float`, so `isinstance(assembly_output, float)` is True for it and
the call succeeds, returning the scalar: no error is raised at this concrete
input. -/
theorem c10_counterexample :
    pyIsFloat (.npFloat64 4) = true ∧
    assemble_eval (fun _ => .tuple [.npFloat64 4, .form demoForm]) [] [] =
      .ok (4, demoForm, []) := by
  decide

/-- C10 (amended): the Forward Evaluator accepts any Python-float instance as
the scalar first element of a two-element return — an exact float or a
library float64, which subclasses Python float — and returns its value; an
int first element (not a float instance) is rejected with the contract
ValueError naming the type; a tuple first element is rejected with the
distinct single-output ValueError before the scalar-type check. -/
theorem c10_float_instance_contract (f : List FenicsVar → PyVal)
    (t : List FenicsVar) (a : List JaxArray) (hc : check_input t a = .ok ()) :
    (∀ n b0, f (convert_all_to_fenics t a) = .tuple [.int n, b0] →
      assemble_eval f t a = .error (.valueError (floatGotMsg "int"))) ∧
    (∀ x φ, f (convert_all_to_fenics t a) = .tuple [.npFloat64 x, .form φ] →
      assemble_eval f t a = .ok (x, φ, convert_all_to_fenics t a)) ∧
    (∀ l b0, f (convert_all_to_fenics t a) = .tuple [.tuple l, b0] →
      assemble_eval f t a = .error (.valueError singleOutputMsg)) ∧
    (∀ x φ, f (convert_all_to_fenics t a) = .tuple [.float x, .form φ] →
      assemble_eval f t a = .ok (x, φ, convert_all_to_fenics t a)) := by
  refine ⟨?_, ?_, ?_, ?_⟩
  · intro n b0 hf
    rw [assemble_eval_body hc, hf]
    rfl
  · intro x φ hf
    rw [assemble_eval_body hc, hf]
    rfl
  · intro l b0 hf
    rw [assemble_eval_body hc, hf]
    rfl
  · intro x φ hf
    rw [assemble_eval_body hc, hf]
    rfl

/-- C10 witness: a concrete call returning a float64 first element succeeds
with that scalar, while one returning an int first element is rejected with
the type-naming ValueError. -/
theorem c10_float_instance_contract_witness :
    assemble_eval (fun _ => .tuple [.npFloat64 7, .form demoForm]) [] [] =
      .ok (7, demoForm, []) ∧
    assemble_eval (fun _ => .tuple [.int 7, .form demoForm]) [] [] =
      .error (.valueError (floatGotMsg "int")) :=
  ⟨(c10_float_instance_contract (fun _ => .tuple [.npFloat64 7, .form demoForm])
      [] [] rfl).2.1 7 demoForm rfl,
    (c10_float_instance_contract (fun _ => .tuple [.int 7, .form demoForm])
      [] [] rfl).1 7 (.form demoForm) rfl⟩

/-- C7: reverse-mode sensitivity fails with NotImplementedError exactly when
some finite-element input is neither a field (Function) nor a scalar constant
(Constant): with an unsupported input present the computation errors with
NotImplementedError, and with only supported inputs it returns gradients and
raises nothing. -/
theorem c7_unsupported_inputs {A : Type} (api : FenicsAPI A) (g : Int)
    (F : UflForm) (inputs : List FenicsVar) :
    ((∃ v ∈ inputs, ∃ tg d, v = .unsupported tg d) →
      vjp_assemble_impl api g F inputs = .error .notImplementedError) ∧
    ((∀ v ∈ inputs, ∀ tg d, v ≠ .unsupported tg d) →
      ∃ grads, vjp_assemble_impl api g F inputs = .ok grads) := by
  constructor
  · intro hex
    simp only [vjp_assemble_impl]
    rw [mapExcept_grad_unsupported inputs hex]
  · intro hall
    have hok : ∀ v ∈ inputs, ∃ y, vjp_grad_form F v = .ok y := by
      intro v hv
      cases v with
      | function V d => exact ⟨_, rfl⟩
      | constant c => exact ⟨_, rfl⟩
      | unsupported tg d => exact absurd rfl (hall _ hv tg d)
    obtain ⟨fs, hfs⟩ := mapExcept_ok_of_forall hok
    refine ⟨(fs.map api.assemble).map (fun fg =>
      fg.map (fun v => (api.fenicsToNumpy v).map (fun x => g * x))), ?_⟩
    simp only [vjp_assemble_impl, hfs]

/-- C7 witness: a concrete unsupported input triggers NotImplementedError,
and a concrete pair of supported inputs yields gradients. -/
theorem c7_unsupported_inputs_witness :
    vjp_assemble_impl apiTwo 1 demoForm [.unsupported 0 []] =
      .error .notImplementedError ∧
    ∃ grads, vjp_assemble_impl apiTwo 1 demoForm [.constant 5] = .ok grads :=
  ⟨(c7_unsupported_inputs apiTwo 1 demoForm [.unsupported 0 []]).1
      ⟨.unsupported 0 [], by decide, 0, [], rfl⟩,
    (c7_unsupported_inputs apiTwo 1 demoForm [.constant 5]).2
      (by
        intro v hv tg d
        simp only [List.mem_singleton] at hv
        subst hv
        intro hcon
        cases hcon)⟩

/-- C4: each reverse-mode sensitivity entry equals the output cotangent times
the assembled derivative of the weak form with respect to that input along a
test function, whose space is the input's own function space for a Function
input and the degenerate (Real, 0) space over the form's domain for a
Constant input (entries stay undefined when the assembler returns None). -/
theorem c4_sensitivity_formula {A : Type} (api : FenicsAPI A) (g : Int)
    (F : UflForm) (inputs : List FenicsVar) (grads : List (Option (List Int)))
    (h : vjp_assemble_impl api g F inputs = .ok grads) :
    grads.length = inputs.length ∧
    (∀ (i : Nat) (V : FunctionSpace) (d : List Int),
      inputs[i]? = some (.function V d) →
      grads[i]? = some ((api.assemble (.deriv F (.function V d) (.test V))).map
        (fun v => (api.fenicsToNumpy v).map (fun x => g * x)))) ∧
    (∀ (i : Nat) (c : Int),
      inputs[i]? = some (.constant c) →
      grads[i]? = some ((api.assemble (.deriv F (.constant c)
          (.test ⟨F.uflDomain, "Real", 0⟩))).map
        (fun v => (api.fenicsToNumpy v).map (fun x => g * x)))) := by
  simp only [vjp_assemble_impl] at h
  cases hm : mapExcept (vjp_grad_form F) inputs with
  | error e => rw [hm] at h; cases h
  | ok fs =>
    rw [hm] at h
    cases h
    refine ⟨by simp [mapExcept_ok_length hm], ?_, ?_⟩
    · intro i V d hi
      obtain ⟨y, hy, hget⟩ := mapExcept_ok_getElem? hm i _ hi
      simp only [vjp_grad_form] at hy
      cases hy
      simp [List.getElem?_map, hget]
    · intro i c hi
      obtain ⟨y, hy, hget⟩ := mapExcept_ok_getElem? hm i _ hi
      simp only [vjp_grad_form] at hy
      cases hy
      simp [List.getElem?_map, hget]

/-- C4 witness: with a backend assembling every form to the vector 2, the
sensitivity of a Function input under cotangent 3 is the scaled vector 6,
produced from the derivative along a test function on the input's own
space. -/
theorem c4_sensitivity_formula_witness :
    (([some [6]] : List (Option (List Int)))[0]? =
      some (some ([6] : List Int))) :=
  (c4_sensitivity_formula apiTwo 3 demoForm [.function demoSpace [1]]
    [some [6]] rfl).2.1 0 demoSpace [1] rfl

/-- C8: both derivative paths route through the single Forward Evaluator:
the primal output of vjp_assemble_eval equals the assemble_eval scalar on the
same arguments (including agreement on errors), and whenever
jvp_assemble_eval returns, its primal component is the assemble_eval scalar
on the same primals. -/
theorem c8_primal_routing {A : Type} (api : FenicsAPI A)
    (f : List FenicsVar → PyVal) (t : List FenicsVar) :
    (∀ args : List JaxArray,
      (vjp_assemble_eval api f t args).map Prod.fst =
        (assemble_eval f t args).map Prod.fst) ∧
    (∀ (primals tangents : List JaxArray) (p : Int) (tg : Option A),
      jvp_assemble_eval api f t primals tangents = .ok (p, tg) →
      ∃ φ ins, assemble_eval f t primals = .ok (p, φ, ins)) := by
  constructor
  · intro args
    cases h : assemble_eval f t args with
    | error e => simp [vjp_assemble_eval, h, Except.map]
    | ok r =>
      obtain ⟨x, φ, ins⟩ := r
      simp [vjp_assemble_eval, h, Except.map]
  · intro primals tangents p tg hjvp
    cases h : assemble_eval f t primals with
    | error e => rw [jvp_assemble_eval, h] at hjvp; cases hjvp
    | ok r =>
      obtain ⟨x, φ, ins⟩ := r
      rw [jvp_assemble_eval, h] at hjvp
      simp only at hjvp
      cases hacc : (List.zip ins (convert_all_to_fenics ins tangents)).foldl
          (fun acc pr => tangentAccumAdd acc (.deriv φ pr.1 (.var pr.2)))
          (FloatOrForm.float 0) with
      | form tf =>
        rw [hacc] at hjvp
        simp only [Except.ok.injEq, Prod.mk.injEq] at hjvp
        obtain ⟨hp, htg⟩ := hjvp
        subst hp
        exact ⟨φ, ins, rfl⟩
      | float c => rw [hacc] at hjvp; cases hjvp

/-- C8 witness: at a concrete single-Constant call the forward-mode pair has
primal 5, which is the assemble_eval output on the same primals. -/
theorem c8_primal_routing_witness :
    ∃ φ ins, assemble_eval (fun _ => .tuple [.float 5, .form demoForm])
      [.constant 0] [[3]] = .ok (5, φ, ins) :=
  (c8_primal_routing apiTwo (fun _ => .tuple [.float 5, .form demoForm])
    [.constant 0]).2 [[3]] [[1]] 5 (some [2]) (by decide)

/-- C1: when the VJP closure returned by vjp_assemble_eval is called and
returns, its result has exactly one entry per positional input (never
fewer), and every entry whose underlying gradient is undefined (None) is
replaced by a zero array of that input's shape rather than by None. -/
theorem c1_vjp_total {A : Type} (api : FenicsAPI A)
    (f : List FenicsVar → PyVal) (t : List FenicsVar) (args : List JaxArray)
    (out : Int) (vfun : Int → Except PyError (List JaxArray)) (g : Int)
    (res : List JaxArray)
    (h : vjp_assemble_eval api f t args = .ok (out, vfun))
    (hres : vfun g = .ok res) :
    ∃ (φ : UflForm) (ins : List FenicsVar) (grads : List (Option (List Int))),
      assemble_eval f t args = .ok (out, φ, ins) ∧
      vjp_assemble_impl api g φ ins = .ok grads ∧
      res.length = args.length ∧
      grads.length = args.length ∧
      ∀ i : Nat, res[i]? =
        grads[i]?.map (fun og => og.getD (zeros_like (args.getD i []))) := by
  rw [vjp_assemble_eval] at h
  cases ha : assemble_eval f t args with
  | error e => rw [ha] at h; cases h
  | ok r =>
    obtain ⟨x, φ, ins⟩ := r
    rw [ha] at h
    simp only [Except.ok.injEq, Prod.mk.injEq] at h
    obtain ⟨hout, hvfun⟩ := h
    subst hout
    rw [← hvfun, vjp_fun] at hres
    cases hg : vjp_assemble_impl api g φ ins with
    | error e => rw [hg] at hres; cases hres
    | ok grads =>
      rw [hg] at hres
      simp only [Except.ok.injEq] at hres
      have hlen : args.length = t.length := by
        obtain ⟨hc, _, _⟩ := assemble_eval_ok_inv ha
        exact check_input_ok_length hc
      have hins : ins.length = args.length := by
        obtain ⟨_, hconv, _⟩ := assemble_eval_ok_inv ha
        rw [hconv, convert_length, hlen]
        simp
      have hgrads : grads.length = args.length := by
        rw [vjp_assemble_impl_length hg, hins]
      refine ⟨φ, ins, grads, rfl, hg, ?_, hgrads, ?_⟩
      · rw [← hres, noneToZeros_length, hgrads]
      · intro i
        rw [← hres, noneToZeros_getElem?]
        simp

/-- C1 witness: a concrete call whose assembler reports an undefined (None)
gradient; the VJP closure returns one entry for the single input, and that
entry is the zero array of the input's shape. -/
theorem c1_vjp_total_witness :
    ∃ (φ : UflForm) (ins : List FenicsVar) (grads : List (Option (List Int))),
      assemble_eval (fun _ => .tuple [.float 3, .form demoForm])
        [.function demoSpace [0, 0]] [[1, 2]] = .ok (3, φ, ins) ∧
      vjp_assemble_impl apiNone 1 φ ins = .ok grads ∧
      ([[0, 0]] : List JaxArray).length = ([[1, 2]] : List JaxArray).length ∧
      grads.length = ([[1, 2]] : List JaxArray).length ∧
      ∀ i : Nat, ([[0, 0]] : List JaxArray)[i]? =
        grads[i]?.map (fun og =>
          og.getD (zeros_like (([[1, 2]] : List JaxArray).getD i []))) :=
  c1_vjp_total apiNone (fun _ => .tuple [.float 3, .form demoForm])
    [.function demoSpace [0, 0]] [[1, 2]] 3
    (vjp_fun apiNone [[1, 2]] demoForm [.function demoSpace [1, 2]]) 1 [[0, 0]]
    rfl rfl

/-- C6: the batched-evaluation rule fails with an assertion error exactly
when the batch axes of the arguments are not all equal to the leading axis 0
(inconsistent axes, or a consistent non-zero axis); when every axis is 0, no
assertion fires. -/
theorem c6_batch_assert (f : List FenicsVar → PyVal) (t : List FenicsVar)
    (vec : List (List JaxArray)) (axes : List Nat) (hne : axes ≠ []) :
    (jax_assemble_eval_batch (jax_assemble_eval f t) vec axes =
        .error .assertionError ↔ ¬ ∀ b ∈ axes, b = 0) := by
  constructor
  · intro herr hall
    have h1 : axes.dedup.length = 1 := dedup_length_one_iff.mpr ⟨0, hne, hall⟩
    have h2 : axes.headD 0 = 0 := by
      obtain ⟨a0, rest, hx⟩ := List.exists_cons_of_ne_nil hne
      subst hx
      simp [hall a0 (by simp)]
    simp only [jax_assemble_eval_batch] at herr
    rw [if_pos h1, if_pos h2] at herr
    cases hm : mapExcept (jax_assemble_eval f t) (zipStar vec) with
    | error e =>
      rw [hm] at herr
      cases herr
      obtain ⟨x2, hx2, hfx⟩ := mapExcept_error_mem hm
      exact jax_assemble_eval_no_assert hfx
    | ok res => rw [hm] at herr; cases herr
  · intro hnall
    by_cases h1 : axes.dedup.length = 1
    · obtain ⟨a, hane, hall⟩ := dedup_length_one_iff.mp h1
      have ha : a ≠ 0 := by
        intro h0
        subst h0
        exact hnall hall
      have h2 : axes.headD 0 = a := by
        obtain ⟨a0, rest, hx⟩ := List.exists_cons_of_ne_nil hne
        subst hx
        simp [hall a0 (by simp)]
      simp only [jax_assemble_eval_batch]
      rw [if_pos h1, if_neg (by rw [h2]; exact ha)]
    · simp only [jax_assemble_eval_batch]
      rw [if_neg h1]

/-- C6 witness: a concrete batched call whose single batch axis is 1 (not the
leading axis) fails with the assertion error. -/
theorem c6_batch_assert_witness :
    jax_assemble_eval_batch
      (jax_assemble_eval (fun _ => .tuple [.float 7, .form demoForm]) [])
      [] [1] = .error .assertionError :=
  (c6_batch_assert (fun _ => .tuple [.float 7, .form demoForm]) [] [] [1]
    (by decide)).mpr (by decide)

/-- C5: for N independent argument sets stacked along the leading axis, the
batched-evaluation rule returns exactly the stack of the N independent plain
evaluations, in the same order, and reports the output batch axis as 0. -/
theorem c5_batch_stacks (f : List FenicsVar → PyVal) (t : List FenicsVar)
    (argsets : List (List JaxArray)) (k : Nat) (vs : List Int)
    (hne : argsets ≠ []) (hk : 0 < k)
    (hrect : ∀ s ∈ argsets, s.length = k)
    (hvs : mapExcept (jax_assemble_eval f t) argsets = .ok vs) :
    jax_assemble_eval_batch (jax_assemble_eval f t) (zipStar argsets)
      (List.replicate k 0) = .ok (vs, 0) := by
  obtain ⟨m, rfl⟩ : ∃ m, k = m + 1 := ⟨k - 1, by omega⟩
  have h1 : (List.replicate (m + 1) (0 : Nat)).dedup = [0] :=
    List.replicate_dedup (by omega)
  have hhead : (List.replicate (m + 1) (0 : Nat)).headD 0 = 0 := by
    simp [List.replicate_succ]
  have hinv := zipStar_invol ([] : JaxArray) m argsets hne hrect
  simp only [jax_assemble_eval_batch]
  rw [if_pos (by rw [h1]; rfl), if_pos hhead, hinv, hvs, hhead]

/-- C5 witness: two stacked argument sets for a single-Constant wrapped
function evaluate batched to the stack of the two plain evaluations, with
output batch axis 0. -/
theorem c5_batch_stacks_witness :
    jax_assemble_eval_batch
      (jax_assemble_eval (fun _ => .tuple [.float 7, .form demoForm]) [.constant 0])
      (zipStar [[[1]], [[2]]]) (List.replicate 1 0) = .ok ([7, 7], 0) :=
  c5_batch_stacks (fun _ => .tuple [.float 7, .form demoForm]) [.constant 0]
    [[[1]], [[2]]] 1 [7, 7] (by decide) (by decide) (by decide) (by decide)
